import Mathlib

/-!
Shallow embedding of `process_time_report` from `file_time_2_interval.py`.

The script reads a CSV report, keeps the rows whose `FileName` ends in
`.pxm`, computes the elapsed seconds between consecutive kept rows,
rewrites each filename to its segment after the last underscore, and
overwrites the file with the two columns `FileName`, `TimeInterval`
(no header, no index).  Machine floats produced by
`diff().dt.total_seconds()` are modelled as exact rationals; the single
file at `file_path` is modelled as an optional file content.
-/

namespace TriggerInterval

/-- The timestamp column name of the input report. -/
def ctCol : String := "CreationTime (with ms)"

/-- Python `s.endswith(suf)`: exact, case-sensitive suffix test. -/
def pyEndsWith (s suf : String) : Bool :=
  List.isSuffixOf suf.toList s.toList

/-- Python `s.split(sep)` for a one-character separator, over the character
list: split at every occurrence, keeping empty segments. -/
def splitChar (sep : Char) : List Char → List (List Char)
  | [] => [[]]
  | c :: cs =>
    match splitChar sep cs with
    | [] => [[]]
    | g :: gs => if c = sep then [] :: g :: gs else (c :: g) :: gs

/-- Line 46: `FileName.str.split('_').str[-1]` — split on underscore and keep
the final segment. -/
def reformatName (s : String) : String :=
  String.mk ((splitChar '_' s.toList).getLastD [])

/-- One parsed record of the report: the `FileName` cell (`none` when the cell
is missing or null) and the parsed `CreationTime (with ms)` timestamp, in
seconds as an exact rational. -/
structure Row where
  fileName : Option String
  creationTime : ℚ
deriving Repr, DecidableEq

/-- Line 21 predicate: `df['FileName'].str.endswith('.pxm', na=False)` — a
missing filename yields `false`, not an error. -/
def matchesPxm (r : Row) : Bool :=
  match r.fileName with
  | none => false
  | some s => pyEndsWith s ".pxm"

/-- Line 21: select the subsequence of rows whose filename ends in `.pxm`. -/
def filterPxm (rows : List Row) : List Row :=
  rows.filter matchesPxm

/-- The tail of `Series.diff`: each element minus its predecessor, `prev`
being the predecessor of the first element. -/
def diffFrom (prev : ℚ) : List ℚ → List (Option ℚ)
  | [] => []
  | t :: ts => some (t - prev) :: diffFrom t ts

/-- Lines 36–42: `diff().dt.total_seconds()` with the first entry (`NaN` from
`diff`) replaced by the empty marker, modelled as `none`. -/
def timeIntervals : List ℚ → List (Option ℚ)
  | [] => []
  | t :: ts => none :: diffFrom t ts

/-- One record of the rewritten table: reformatted filename and interval
(`none` is the empty-string marker of the first row). -/
structure OutputRow where
  fileName : String
  timeInterval : Option ℚ
deriving Repr, DecidableEq

/-- Lines 39–49: pair each selected row's reformatted filename with its
interval, in selected-row order. -/
def outputRows (rows : List Row) : List OutputRow :=
  List.zipWith (fun r iv => ⟨reformatName (r.fileName.getD ""), iv⟩)
    (filterPxm rows) (timeIntervals ((filterPxm rows).map Row.creationTime))

/-- A CSV cell as written by `to_csv`: either text or a number. -/
inductive Cell where
  | str (s : String)
  | num (q : ℚ)
deriving Repr, DecidableEq

/-- A file is a sequence of records of cells.  There is no separate header
structure: when a header line is present it is the first record. -/
abbrev FileContent := List (List Cell)

/-- Serialization of one `TimeInterval` value: the empty string for the
first-row marker, otherwise the number. -/
def intervalCell : Option ℚ → Cell
  | none => Cell.str ""
  | some q => Cell.num q

/-- Line 52: `to_csv(file_path, index=False, header=False)` — two cells per
record, no header record, no index cell. -/
def to_csv (out : List OutputRow) : FileContent :=
  out.map (fun r => [Cell.str r.fileName, intervalCell r.timeInterval])

/-- The error kinds the `try` block can raise. -/
inductive ProcError where
  | emptyData
  | keyError (col : String)
  | timeParseError (s : String)
deriving Repr, DecidableEq

/-- The observable outcome of one call: which message is reported and what is
written to the file. -/
inductive Effect where
  | fileNotFound
  | truncate
  | write (rows : List OutputRow)
  | errorCaught (e : ProcError)
deriving Repr, DecidableEq

/-- Lines 21–52 on parsed rows: filter, truncate when nothing matches,
otherwise produce the rewritten table. -/
def processRows (rows : List Row) : Effect :=
  if (filterPxm rows).isEmpty then Effect.truncate
  else Effect.write (outputRows rows)

/-- How a cell reads back as text. -/
def Cell.render : Cell → String
  | .str s => s
  | .num q => toString q

/-- The parsed table `pd.read_csv` yields: a header row and data rows. -/
structure RawCsv where
  header : List String
  rows : List (List String)
deriving Repr, DecidableEq

/-- Line 18: `pd.read_csv(file_path)` on the file model — the first record is
taken as the header row; an empty file raises `EmptyDataError`. -/
def read_csv : FileContent → Except ProcError RawCsv
  | [] => Except.error ProcError.emptyData
  | h :: rs => Except.ok ⟨h.map Cell.render, rs.map (fun r => r.map Cell.render)⟩

/-- Cell of one raw record under a column name. -/
def getCol (header row : List String) (col : String) : Option String :=
  (header.findIdx? (fun h => h == col)).bind (fun i => row.get? i)

/-- Line 21 at the raw level. -/
def rowMatches (header : List String) (row : List String) : Bool :=
  match getCol header row "FileName" with
  | none => false
  | some s => pyEndsWith s ".pxm"

/-- Digit-string value, `none` when empty or not all digits. -/
def digitsVal? (cs : List Char) : Option Nat :=
  if cs.isEmpty then none
  else if cs.all Char.isDigit then
    some (cs.foldl (fun a c => a * 10 + (c.toNat - 48)) 0)
  else none

/-- Gregorian leap year. -/
def isLeap (y : Nat) : Bool :=
  (y % 4 == 0 && y % 100 != 0) || y % 400 == 0

/-- Days in a month of the proleptic Gregorian calendar. -/
def daysInMonth (y m : Nat) : Nat :=
  if m == 2 then (if isLeap y then 29 else 28)
  else if m == 4 || m == 6 || m == 9 || m == 11 then 30
  else 31

/-- Days before January 1 of year `y`, counted from year 1. -/
def daysBeforeYear (y : Nat) : Nat :=
  365 * (y - 1) + (y - 1) / 4 - (y - 1) / 100 + (y - 1) / 400

/-- Days of year `y` before the first of month `m`. -/
def daysBeforeMonth (y m : Nat) : Nat :=
  (List.range (m - 1)).foldl (fun a i => a + daysInMonth y (i + 1)) 0

/-- Whole seconds from the epoch `0001-01-01 00:00:00` of a civil date-time. -/
def civilSeconds (y mo d h mi : Nat) : Nat :=
  (daysBeforeYear y + daysBeforeMonth y mo + (d - 1)) * 86400 + h * 3600 + mi * 60

/-- Seconds field `SS` or `SS.fraction`, as an exact rational. -/
def parseSec? (cs : List Char) : Option ℚ :=
  match splitChar '.' cs with
  | [w] => (digitsVal? w).bind (fun n => if n < 60 then some (n : ℚ) else none)
  | [w, f] =>
    match digitsVal? w, digitsVal? f with
    | some n, some fn =>
      if n < 60 then some ((n : ℚ) + (fn : ℚ) / (10 ^ f.length)) else none
    | _, _ => none
  | _ => none

/-- Model of `pd.to_datetime` restricted to the report's textual format
`YYYY-MM-DD HH:MM:SS[.fraction]`: the timestamp in seconds from the epoch, or
`none` when the value is unparseable. -/
def parseTime (s : String) : Option ℚ :=
  match splitChar ' ' s.toList with
  | [ds, ts] =>
    match splitChar '-' ds, splitChar ':' ts with
    | [ys, mos, dys], [hs, mins, secs] =>
      match digitsVal? ys, digitsVal? mos, digitsVal? dys,
            digitsVal? hs, digitsVal? mins, parseSec? secs with
      | some y, some mo, some d, some h, some mi, some sec =>
        if 1 ≤ y ∧ 1 ≤ mo ∧ mo ≤ 12 ∧ 1 ≤ d ∧ d ≤ daysInMonth y mo ∧
            h < 24 ∧ mi < 60 then
          some ((civilSeconds y mo d h mi : ℚ) + sec)
        else none
      | _, _, _, _, _, _ => none
    | _, _ => none
  | _ => none

/-- Line 32 on one selected raw record: parse the timestamp cell (an error when
it is unparseable), keeping the filename cell. -/
def parseRowTime (header : List String) (row : List String) :
    Except ProcError Row :=
  let tRaw := (getCol header row ctCol).getD ""
  match parseTime tRaw with
  | none => Except.error (ProcError.timeParseError tRaw)
  | some q => Except.ok ⟨getCol header row "FileName", q⟩

/-- Lines 18–52: the body of the `try` block, every raised error surfacing as
an `Except.error`.  Column accesses happen in source order: `FileName` at the
filter (line 21) and `CreationTime (with ms)` at the timestamp conversion
(line 32), the latter only when the selection is non-empty. -/
def rawProcess (file : FileContent) : Except ProcError Effect :=
  match read_csv file with
  | Except.error e => Except.error e
  | Except.ok csv =>
    if csv.header.contains "FileName" then
      if (csv.rows.filter (rowMatches csv.header)).isEmpty then
        Except.ok Effect.truncate
      else if csv.header.contains ctCol then
        match (csv.rows.filter (rowMatches csv.header)).mapM
            (parseRowTime csv.header) with
        | Except.error e => Except.error e
        | Except.ok rows => Except.ok (processRows rows)
      else Except.error (ProcError.keyError ctCol)
    else Except.error (ProcError.keyError "FileName")

/-- Lines 12–56: the existence check, then the `try`/`except` boundary turning
every raised error into a reported message. -/
def process_time_report (fs : Option FileContent) : Effect :=
  match fs with
  | none => Effect.fileNotFound
  | some file =>
    match rawProcess file with
    | Except.ok eff => eff
    | Except.error e => Effect.errorCaught e

/-- The update an effect performs on the file at the single path used both for
input and output. -/
def applyEffect (eff : Effect) (fs : Option FileContent) : Option FileContent :=
  match eff with
  | Effect.fileNotFound => fs
  | Effect.truncate => some []
  | Effect.write out => some (to_csv out)
  | Effect.errorCaught _ => fs

/-- Modelled from the spec: "the substring following the last underscore in
the original filename" — everything after the last occurrence of `sep`, the
whole string when `sep` does not occur. -/
def afterLast (sep : Char) : List Char → List Char
  | [] => []
  | c :: cs =>
    if sep ∈ cs then afterLast sep cs
    else if c = sep then cs
    else c :: cs

/-- Concrete table used by the witnesses: two `.pxm` rows and one `.txt` row. -/
def exRows : List Row :=
  [⟨some "a_1.pxm", 0⟩, ⟨some "a_2.pxm", 3/2⟩, ⟨some "b.txt", 2⟩]

/-- The output the processor writes for `exRows`. -/
def exOut : List OutputRow :=
  [⟨"1.pxm", none⟩, ⟨"2.pxm", some (3/2)⟩]

/-- Concrete input with a header and no `.pxm` row. -/
def exNoPxmFile : FileContent :=
  [[Cell.str "FileName", Cell.str "CreationTime (with ms)"],
   [Cell.str "b.txt", Cell.str "2024-01-01 00:00:00.000"]]

/-- Concrete well-formed input with two `.pxm` rows. -/
def exFile : FileContent :=
  [[Cell.str "FileName", Cell.str "CreationTime (with ms)"],
   [Cell.str "a_1.pxm", Cell.str "2024-01-01 00:00:00.000"],
   [Cell.str "a_2.pxm", Cell.str "2024-01-01 00:00:01.500"]]

/-! ### Lemmas about splitting -/

theorem splitChar_ne_nil (sep : Char) (cs : List Char) : splitChar sep cs ≠ [] := by
  induction cs with
  | nil => simp [splitChar]
  | cons c cs ih =>
    simp only [splitChar]
    cases h : splitChar sep cs with
    | nil => exact absurd h ih
    | cons g gs => by_cases hc : c = sep <;> simp [hc]

theorem splitChar_of_not_mem (sep : Char) (cs : List Char) (h : sep ∉ cs) :
    splitChar sep cs = [cs] := by
  induction cs with
  | nil => rfl
  | cons c cs ih =>
    rw [List.mem_cons, not_or] at h
    have hc : ¬ c = sep := fun e => h.1 e.symm
    simp [splitChar, ih h.2, hc]

theorem splitChar_of_mem (sep : Char) (cs : List Char) (h : sep ∈ cs) :
    ∃ g gs, splitChar sep cs = g :: gs ∧ gs ≠ [] := by
  induction cs with
  | nil => cases h
  | cons c cs ih =>
    by_cases hc : c = sep
    · obtain ⟨g, gs, hgs⟩ : ∃ g gs, splitChar sep cs = g :: gs := by
        cases hh : splitChar sep cs with
        | nil => exact absurd hh (splitChar_ne_nil sep cs)
        | cons g gs => exact ⟨g, gs, rfl⟩
      exact ⟨[], g :: gs, by simp [splitChar, hgs, hc], by simp⟩
    · have hm : sep ∈ cs := by
        rcases List.mem_cons.mp h with he | hm
        · exact absurd he.symm hc
        · exact hm
      obtain ⟨g, gs, hsp, hne⟩ := ih hm
      exact ⟨c :: g, gs, by simp [splitChar, hsp, hc], hne⟩

theorem afterLast_of_not_mem (sep : Char) (cs : List Char) (h : sep ∉ cs) :
    afterLast sep cs = cs := by
  cases cs with
  | nil => rfl
  | cons c cs =>
    rw [List.mem_cons, not_or] at h
    have hc : ¬ c = sep := fun e => h.1 e.symm
    simp [afterLast, h.2, hc]

theorem getLastD_splitChar (sep : Char) (cs : List Char) :
    (splitChar sep cs).getLastD [] = afterLast sep cs := by
  induction cs with
  | nil => rfl
  | cons c cs ih =>
    by_cases hm : sep ∈ cs
    · obtain ⟨g, gs, hsp, hne⟩ := splitChar_of_mem sep cs hm
      rw [hsp] at ih
      by_cases hc : c = sep
      · simp only [splitChar, hsp, if_pos hc, afterLast, if_pos hm]
        rw [List.getLastD_cons, ← ih, List.getLastD_cons]
      · simp only [splitChar, hsp, if_neg hc, afterLast, if_pos hm]
        rw [← ih]
        cases gs with
        | nil => exact absurd rfl hne
        | cons x xs => rw [List.getLastD_cons, List.getLastD_cons,
            List.getLastD_cons, List.getLastD_cons]
    · rw [splitChar_of_not_mem sep cs hm] at *
      by_cases hc : c = sep
      · simp [splitChar, splitChar_of_not_mem sep cs hm, hc, afterLast, hm]
      · simp [splitChar, splitChar_of_not_mem sep cs hm, hc, afterLast, hm]

theorem suffix_afterLast (sep : Char) (t cs : List Char)
    (ht : sep ∉ t) (h : t <:+ cs) : t <:+ afterLast sep cs := by
  induction cs with
  | nil => simpa [afterLast] using h
  | cons c cs ih =>
    rcases List.suffix_cons_iff.mp h with he | hs
    · subst he
      rw [List.mem_cons, not_or] at ht
      have hc : ¬ c = sep := fun e => ht.1 e.symm
      simp only [afterLast, if_neg (ht.2), if_neg hc]
      exact List.suffix_refl _
    · by_cases hm : sep ∈ cs
      · simpa [afterLast, hm] using ih hs
      · by_cases hc : c = sep
        · simpa [afterLast, hm, hc] using hs
        · simp only [afterLast, if_neg hm, if_neg hc]
          exact hs.trans (List.suffix_cons c cs)

/-- The character-level content of a reformatted name. -/
theorem reformatName_toList (s : String) :
    (reformatName s).toList = afterLast '_' s.toList := by
  show (splitChar '_' s.toList).getLastD [] = _
  exact getLastD_splitChar '_' s.toList

/-- Shared: reformatting keeps any suffix that contains no underscore. -/
theorem pyEndsWith_reformat (s suf : String) (hu : '_' ∉ suf.toList)
    (h : pyEndsWith s suf = true) : pyEndsWith (reformatName s) suf = true := by
  rw [pyEndsWith, List.isSuffixOf_iff_suffix] at h ⊢
  rw [reformatName_toList]
  exact suffix_afterLast '_' suf.toList s.toList hu h

/-- Claim C7: for every filename, the reformatted name is exactly the substring after
the final underscore, and a name without an underscore is unchanged. -/
theorem reformat_is_afterLast (s : String) :
    reformatName s = String.mk (afterLast '_' s.toList) ∧
    ('_' ∉ s.toList → reformatName s = s) := by
  constructor
  · show String.mk ((splitChar '_' s.toList).getLastD []) = _
    rw [getLastD_splitChar]
  · intro h
    show String.mk ((splitChar '_' s.toList).getLastD []) = s
    rw [splitChar_of_not_mem _ _ h, List.getLastD_cons, List.getLastD_nil]
    cases s
    rfl

/-- Witness for C7 at a concrete underscore-free filename. -/
theorem reformat_is_afterLast_witness : reformatName "0003.pxm" = "0003.pxm" :=
  (reformat_is_afterLast "0003.pxm").2 (by decide)

/-- Claim C10: every selected filename still ends in ".pxm" after reformatting. -/
theorem reformat_keeps_pxm (s : String) (h : pyEndsWith s ".pxm" = true) :
    pyEndsWith (reformatName s) ".pxm" = true :=
  pyEndsWith_reformat s ".pxm" (by decide) h

/-- Witness for C10 at a concrete filename. -/
theorem reformat_keeps_pxm_witness :
    pyEndsWith (reformatName "PXMs_04_0000_0003.pxm") ".pxm" = true :=
  reformat_keeps_pxm "PXMs_04_0000_0003.pxm" (by decide)

/-! ### Lemmas about intervals and the rewritten table -/

theorem diffFrom_length (prev : ℚ) (ts : List ℚ) :
    (diffFrom prev ts).length = ts.length := by
  induction ts generalizing prev with
  | nil => rfl
  | cons t ts ih => simp [diffFrom, ih]

theorem timeIntervals_length (ts : List ℚ) : (timeIntervals ts).length = ts.length := by
  cases ts with
  | nil => rfl
  | cons t ts => simp [timeIntervals, diffFrom_length]

theorem diffFrom_get? (ts : List ℚ) : ∀ (prev : ℚ) (i : Nat) (x y : ℚ),
    (prev :: ts).get? i = some x → ts.get? i = some y →
    (diffFrom prev ts).get? i = some (some (y - x)) := by
  induction ts with
  | nil => intro prev i x y _ hy; simp at hy
  | cons t ts ih =>
    intro prev i x y hx hy
    cases i with
    | zero =>
      rw [List.get?_cons_zero, Option.some_inj] at hx hy
      subst hx; subst hy
      rfl
    | succ i =>
      rw [List.get?_cons_succ] at hx hy
      exact ih t i x y hx hy

theorem timeIntervals_get? (ts : List ℚ) (i : Nat) (x y : ℚ)
    (hx : ts.get? i = some x) (hy : ts.get? (i + 1) = some y) :
    (timeIntervals ts).get? (i + 1) = some (some (y - x)) := by
  cases ts with
  | nil => simp at hx
  | cons t ts =>
    show (none :: diffFrom t ts : List (Option ℚ)).get? (i + 1) = _
    rw [List.get?_cons_succ]
    rw [List.get?_cons_succ] at hy
    exact diffFrom_get? ts t i x y hx hy

theorem outputRows_length (rows : List Row) :
    (outputRows rows).length = (filterPxm rows).length := by
  simp [outputRows, List.length_zipWith, timeIntervals_length]

theorem processRows_write (rows : List Row) (h : filterPxm rows ≠ []) :
    processRows rows = Effect.write (outputRows rows) := by
  cases hf : filterPxm rows with
  | nil => exact absurd hf h
  | cons a rest => simp [processRows, hf]

/-- Claim C1: for every input table, at every selected position `i > 0` the written
interval is the timestamp of selected row `i` minus the timestamp of selected
row `i - 1`, as signed exact seconds. -/
theorem interval_eq_diff (rows : List Row) (i : Nat) (a b : Row)
    (hi : 0 < i)
    (ha : (filterPxm rows).get? (i - 1) = some a)
    (hb : (filterPxm rows).get? i = some b) :
    processRows rows = Effect.write (outputRows rows) ∧
    ((outputRows rows).get? i).map OutputRow.timeInterval =
      some (some (b.creationTime - a.creationTime)) := by
  obtain ⟨j, rfl⟩ : ∃ j, i = j + 1 := ⟨i - 1, (Nat.succ_pred_eq_of_pos hi).symm⟩
  have hj : (filterPxm rows).get? j = some a := by simpa using ha
  constructor
  · refine processRows_write rows (fun h => ?_)
    rw [h] at hb
    simp at hb
  · have hx : ((filterPxm rows).map Row.creationTime).get? j = some a.creationTime := by
      rw [List.get?_map, hj]; rfl
    have hy : ((filterPxm rows).map Row.creationTime).get? (j + 1) =
        some b.creationTime := by
      rw [List.get?_map, hb]; rfl
    have hiv := timeIntervals_get? _ j _ _ hx hy
    rw [outputRows, List.get?_zipWith', hb, hiv]
    rfl

/-- Witness for C1 on `exRows` at selected position 1. -/
theorem interval_eq_diff_witness :
    processRows exRows = Effect.write (outputRows exRows) ∧
    ((outputRows exRows).get? 1).map OutputRow.timeInterval =
      some (some ((3/2 : ℚ) - 0)) :=
  interval_eq_diff exRows 1 ⟨some "a_1.pxm", 0⟩ ⟨some "a_2.pxm", 3/2⟩
    (by decide) (by with_unfolding_all rfl) (by with_unfolding_all rfl)

/-- Claim C2: when the selection is non-empty, the first output row's interval is the
empty marker, written as the empty-string cell — not a number, not null. -/
theorem first_interval_empty (rows : List Row) (h : filterPxm rows ≠ []) :
    ∃ r out, processRows rows = Effect.write (r :: out) ∧
      r.timeInterval = none ∧
      (to_csv (r :: out)).get? 0 = some [Cell.str r.fileName, Cell.str ""] := by
  cases hf : filterPxm rows with
  | nil => exact absurd hf h
  | cons a rest =>
    refine ⟨⟨reformatName (a.fileName.getD ""), none⟩,
      List.zipWith (fun r iv => ⟨reformatName (r.fileName.getD ""), iv⟩) rest
        (diffFrom a.creationTime (rest.map Row.creationTime)), ?_, rfl, rfl⟩
    rw [processRows_write rows (by rw [hf]; exact List.cons_ne_nil a rest)]
    rw [outputRows, hf]
    rfl

/-- Witness for C2 on `exRows`. -/
theorem first_interval_empty_witness :
    ∃ r out, processRows exRows = Effect.write (r :: out) ∧
      r.timeInterval = none ∧
      (to_csv (r :: out)).get? 0 = some [Cell.str r.fileName, Cell.str ""] :=
  first_interval_empty exRows (by with_unfolding_all (exact fun h => nomatch h))

/-- Claim C3: with a non-empty selection the file at the single path is overwritten
with one two-cell record per selected row, in selected-row order: the
reformatted filename first and the interval second, with no header record and
no index cell. -/
theorem output_overwrites_file (rows : List Row) (fs : Option FileContent)
    (h : filterPxm rows ≠ []) :
    applyEffect (processRows rows) fs = some (to_csv (outputRows rows)) ∧
    (to_csv (outputRows rows)).length = (filterPxm rows).length ∧
    (∀ i a, (filterPxm rows).get? i = some a →
      ∃ iv, (timeIntervals ((filterPxm rows).map Row.creationTime)).get? i = some iv ∧
        (to_csv (outputRows rows)).get? i =
          some [Cell.str (reformatName (a.fileName.getD "")), intervalCell iv]) := by
  refine ⟨by rw [processRows_write rows h]; rfl, ?_, ?_⟩
  · simp [to_csv, outputRows_length]
  · intro i a ha
    have hlt : i < (filterPxm rows).length := by
      by_contra hge
      rw [List.get?_eq_none.mpr (Nat.le_of_not_lt hge)] at ha
      cases ha
    have hlt2 : i < (timeIntervals ((filterPxm rows).map Row.creationTime)).length := by
      rw [timeIntervals_length, List.length_map]
      exact hlt
    obtain ⟨iv, hiv⟩ : ∃ iv,
        (timeIntervals ((filterPxm rows).map Row.creationTime)).get? i = some iv :=
      ⟨_, List.get?_eq_get hlt2⟩
    refine ⟨iv, hiv, ?_⟩
    rw [to_csv, List.get?_map, outputRows, List.get?_zipWith', ha, hiv]
    rfl

/-- Witness for C3 on `exRows` with an arbitrary previous file state. -/
theorem output_overwrites_file_witness :
    applyEffect (processRows exRows) none = some (to_csv (outputRows exRows)) ∧
    (to_csv (outputRows exRows)).length = (filterPxm exRows).length ∧
    (∀ i a, (filterPxm exRows).get? i = some a →
      ∃ iv, (timeIntervals ((filterPxm exRows).map Row.creationTime)).get? i = some iv ∧
        (to_csv (outputRows exRows)).get? i =
          some [Cell.str (reformatName (a.fileName.getD "")), intervalCell iv]) :=
  output_overwrites_file exRows none (by with_unfolding_all (exact fun h => nomatch h))

/-- The filter predicate in propositional form. -/
theorem matchesPxm_eq_true (r : Row) : matchesPxm r = true ↔
    ∃ s, r.fileName = some s ∧ pyEndsWith s ".pxm" = true := by
  cases hf : r.fileName with
  | none => simp [matchesPxm, hf]
  | some s => simp [matchesPxm, hf]

/-- Claim C6: the filter keeps exactly the subsequence of rows whose filename is
present and ends with ".pxm"; a row with a missing filename is excluded, not
errored. -/
theorem filter_selects_pxm (rows : List Row) :
    (filterPxm rows).Sublist rows ∧
    (∀ r : Row, r ∈ filterPxm rows ↔
      r ∈ rows ∧ ∃ s, r.fileName = some s ∧ pyEndsWith s ".pxm" = true) ∧
    (∀ r : Row, r.fileName = none → r ∉ filterPxm rows) := by
  refine ⟨List.filter_sublist rows, ?_, ?_⟩
  · intro r
    rw [filterPxm, List.mem_filter, matchesPxm_eq_true]
  · intro r hf hmem
    rw [filterPxm, List.mem_filter, matchesPxm_eq_true] at hmem
    obtain ⟨-, s, hs, -⟩ := hmem
    rw [hf] at hs
    cases hs

/-- Witness for C6: the `.txt` row of `exRows` is not selected, the second
`.pxm` row is. -/
theorem filter_selects_pxm_witness :
    ((⟨some "b.txt", 2⟩ : Row) ∈ filterPxm exRows → False) ∧
    (⟨some "a_2.pxm", 3/2⟩ : Row) ∈ filterPxm exRows := by
  constructor
  · intro hmem
    obtain ⟨-, s, hs, he⟩ := ((filter_selects_pxm exRows).2.1 _).mp hmem
    rw [Option.some_inj] at hs
    subst hs
    exact absurd he (by decide)
  · exact ((filter_selects_pxm exRows).2.1 _).mpr
      ⟨by with_unfolding_all (exact List.mem_cons_of_mem _ (List.mem_cons_self _ _)),
       "a_2.pxm", rfl, by decide⟩

/-! ### The raw pipeline: truncation, error conversion, re-running on output -/

/-- Claim C4: a parseable table with a `FileName` column and no matching row leads to
a successful truncation of the file to zero length — not an error. -/
theorem empty_selection_truncates (file : FileContent) (csv : RawCsv)
    (hread : read_csv file = Except.ok csv)
    (hfn : csv.header.contains "FileName" = true)
    (hempty : csv.rows.filter (rowMatches csv.header) = []) :
    rawProcess file = Except.ok Effect.truncate ∧
    process_time_report (some file) = Effect.truncate ∧
    applyEffect Effect.truncate (some file) = some ([] : FileContent) := by
  have h1 : rawProcess file = Except.ok Effect.truncate := by
    have hmem : "FileName" ∈ csv.header := by simpa using hfn
    simp [rawProcess, hread, hfn, hmem, hempty]
  exact ⟨h1, by simp [process_time_report, h1], rfl⟩

/-- Witness for C4 on `exNoPxmFile`. -/
theorem empty_selection_truncates_witness :
    rawProcess exNoPxmFile = Except.ok Effect.truncate ∧
    process_time_report (some exNoPxmFile) = Effect.truncate ∧
    applyEffect Effect.truncate (some exNoPxmFile) = some ([] : FileContent) :=
  empty_selection_truncates exNoPxmFile
    ⟨["FileName", "CreationTime (with ms)"], [["b.txt", "2024-01-01 00:00:00.000"]]⟩
    (by with_unfolding_all rfl) (by decide) (by decide)

/-- Claim C5 fails as stated: on the processor's own output the raised error is a
missing `FileName` column, which is not the claimed missing
`CreationTime (with ms)` column. -/
theorem rerun_error_counterexample :
    rawProcess exFile = Except.ok (Effect.write exOut) ∧
    rawProcess (to_csv exOut) = Except.error (ProcError.keyError "FileName") ∧
    ProcError.keyError "FileName" ≠ ProcError.keyError "CreationTime (with ms)" :=
  ⟨by with_unfolding_all rfl, by with_unfolding_all rfl, by decide⟩

/-- Claim C5 as amended: re-running the processor on any table it wrote raises the
missing-column error for `FileName` — the first column the code accesses —
since the output is headerless and its first record becomes the header. -/
theorem rerun_missing_filename (rows : List Row) (out : List OutputRow)
    (h : processRows rows = Effect.write out) :
    rawProcess (to_csv out) = Except.error (ProcError.keyError "FileName") := by
  cases hf : filterPxm rows with
  | nil =>
    rw [processRows, hf] at h
    simp at h
  | cons a rest =>
    rw [processRows_write rows (by rw [hf]; exact List.cons_ne_nil a rest)] at h
    have hout : outputRows rows = out := by
      injection h
    have hshape : out =
        (⟨reformatName (a.fileName.getD ""), none⟩ : OutputRow) ::
        List.zipWith (fun r iv => ⟨reformatName (r.fileName.getD ""), iv⟩) rest
          (diffFrom a.creationTime (rest.map Row.creationTime)) := by
      rw [← hout, outputRows, hf]
      rfl
    have hmem : a ∈ filterPxm rows := by
      rw [hf]; exact List.mem_cons_self a rest
    rw [filterPxm, List.mem_filter, matchesPxm_eq_true] at hmem
    obtain ⟨-, s, hs, he⟩ := hmem
    have hgd : a.fileName.getD "" = s := by rw [hs]; rfl
    have hpn : pyEndsWith (reformatName s) ".pxm" = true :=
      pyEndsWith_reformat s ".pxm" (by decide) he
    have hn : reformatName s ≠ "FileName" := by
      intro e
      rw [e] at hpn
      exact absurd hpn (by decide)
    have hcontains :
        (([reformatName s, ""] : List String).contains "FileName") = false := by
      simp only [List.contains, List.elem_eq_mem, decide_eq_false_iff_not,
        List.mem_cons, List.not_mem_nil, or_false]
      rintro (e | e)
      · exact hn e.symm
      · exact absurd e (by decide)
    rw [hshape, hgd]
    simp only [to_csv, List.map_cons, List.map_nil]
    simp only [rawProcess, read_csv, Cell.render, intervalCell, List.map_cons,
      List.map_nil]
    rw [hcontains]
    simp

/-- Witness for the amended C5: on `exRows` the first run writes `exOut`, and
re-running on that output raises the `FileName` key error. -/
theorem rerun_missing_filename_witness :
    rawProcess (to_csv exOut) = Except.error (ProcError.keyError "FileName") :=
  rerun_missing_filename exRows exOut (by with_unfolding_all rfl)

/-- Claim C8: with no file at the path, the processor reports `FileNotFound` and no
file is created or modified. -/
theorem missing_file_reports (fs : Option FileContent) :
    process_time_report none = Effect.fileNotFound ∧
    applyEffect Effect.fileNotFound fs = fs ∧
    applyEffect (process_time_report none) none = none :=
  ⟨rfl, rfl, rfl⟩

/-- Claim C9: every error the processing body raises is caught and converted into a
reported message, and otherwise the computed effect is returned; the function
always returns normally with an `Effect`. -/
theorem errors_are_caught (file : FileContent) :
    (∃ e, rawProcess file = Except.error e ∧
      process_time_report (some file) = Effect.errorCaught e) ∨
    (∃ eff, rawProcess file = Except.ok eff ∧
      process_time_report (some file) = eff) := by
  cases h : rawProcess file with
  | error e => exact Or.inl ⟨e, rfl, by simp [process_time_report, h]⟩
  | ok eff => exact Or.inr ⟨eff, rfl, by simp [process_time_report, h]⟩

end TriggerInterval
